import Mathlib

/-!
Verification development for the `ictbot` trading agent (`ictbot.py`).

The Python source is shallowly embedded: floats become exact rationals
(`ℚ`), millisecond timestamps become `ℤ`, dict-shaped exchange payloads
become explicit structures, and functions with venue side effects become
pure functions over an explicit outcome/trace model (each network call's
success or failure is an input, and the calls issued are returned as an
event trace).  Every definition mirrors a named function of the source;
line references are given in the doc comments.
-/

namespace Ictbot

/-- Mirrors `EPS = 1e-9` (ictbot.py line 375). -/
def EPS : ℚ := 1 / 1000000000

/-- Position side, the `"long"` / `"short"` strings of the source. -/
inductive Side where
  | long
  | short
deriving DecidableEq, Repr

/-- The trailing-stop cache fields of `RunState` (ictbot.py lines 951-955). -/
structure TrailState where
  last_trailing_sl : Option ℚ
  last_trailing_side : Option Side
  last_trailing_client_id : Option String
  last_trailing_order_id : Option ℤ
deriving DecidableEq, Repr

/-- Mirrors `_trailing_improvement_ok` (ictbot.py lines 2120-2132): the proposed new
stop must improve the tracked one by at least `max 1 min_tick_improve`
ticks (tick floored at `EPS`); a missing or different-side cache always
passes. -/
def trailing_improvement_ok (st : TrailState) (side : Side) (new_sl : ℚ)
    (min_tick_improve : ℤ) (tick : ℚ) : Bool :=
  let min_improve : ℚ := (max 1 min_tick_improve : ℤ) * max EPS tick
  match st.last_trailing_sl, st.last_trailing_side with
  | none, _ => true
  | some _, none => true
  | some last_sl, some last_side =>
    if last_side ≠ side then true
    else
      match side with
      | .long => decide (new_sl > last_sl + min_improve)
      | .short => decide (new_sl < last_sl - min_improve)

/-- Venue calls issued by the trailing replace protocol of
`update_trailing_sl` (ictbot.py lines 2226-2294). -/
inductive TrailEvent where
  | placeStop (cid : String) (sl : ℚ)
  | cancelByCid (cid : String)
  | cancelById (oid : ℤ)
deriving DecidableEq, Repr

/-- The cancel of the previously tracked protective stop (ictbot.py lines
2243-2248 on the success path and 2252-2256 on the failure path): by
client id when tracked, else by order id, else no call. -/
def cancelPrevEvents (st : TrailState) : List TrailEvent :=
  match st.last_trailing_client_id with
  | some cid => [TrailEvent.cancelByCid cid]
  | none =>
    match st.last_trailing_order_id with
    | some oid => [TrailEvent.cancelById oid]
    | none => []

/-- The replace protocol of `update_trailing_sl` (ictbot.py lines
2226-2280), given the venue outcomes: `ok1` - the first placement attempt
succeeds; `okCancel` - the cancel of the previous stop raises no error;
`ok2` - the second placement attempt succeeds.  Returns the new trailing
cache, the trace of venue calls issued, and whether a new stop was placed.
On `ok1` the old stop is cancelled best-effort and the cache is updated;
on failure the code cancels the old stop, retries the placement once
(only reached when the cancel itself raised no error), and on a second
failure leaves the cache untouched. -/
def updateTrailingReplace (st : TrailState) (side : Side) (new_sl : ℚ)
    (newCid : String) (ok1 okCancel ok2 : Bool) :
    TrailState × List TrailEvent × Bool :=
  let place := TrailEvent.placeStop newCid new_sl
  let success : TrailState :=
    { last_trailing_sl := some new_sl
      last_trailing_side := some side
      last_trailing_client_id := some newCid
      last_trailing_order_id := none }
  if ok1 then
    (success, place :: cancelPrevEvents st, true)
  else
    if okCancel then
      if ok2 then
        (success, place :: (cancelPrevEvents st ++ [place]), true)
      else
        (st, place :: (cancelPrevEvents st ++ [place]), false)
    else
      -- the cancel raised: the `except` handler catches it before the retry
      (st, place :: cancelPrevEvents st, false)

/-- One call of `update_trailing_sl` (ictbot.py lines 2195-2294) as a state
transformer on the trailing cache: `proposal` is the result of
`_compute_trail_target` (`none` when no update is warranted or the
position/ATR guards return early); the improvement gate
(`_trailing_improvement_ok`, applied at line 2222) and the replace
protocol decide whether the cache moves to the proposed stop. -/
def updateTrailingStep (st : TrailState) (side : Side) (proposal : Option ℚ)
    (min_tick_improve : ℤ) (tick : ℚ) (newCid : String)
    (ok1 okCancel ok2 : Bool) : TrailState :=
  match proposal with
  | none => st
  | some new_sl =>
    if trailing_improvement_ok st side new_sl min_tick_improve tick then
      (updateTrailingReplace st side new_sl newCid ok1 okCancel ok2).1
    else
      st

/-- A whole sequence of `update_trailing_sl` calls for one side, each with
its own proposal, client id and venue outcomes. -/
structure TrailCall where
  proposal : Option ℚ
  newCid : String
  ok1 : Bool
  okCancel : Bool
  ok2 : Bool

/-- Fold a sequence of `update_trailing_sl` calls for one side. -/
def runTrailingSeq (st : TrailState) (side : Side)
    (min_tick_improve : ℤ) (tick : ℚ) : List TrailCall → TrailState
  | [] => st
  | c :: cs =>
    runTrailingSeq
      (updateTrailingStep st side c.proposal min_tick_improve tick c.newCid
        c.ok1 c.okCancel c.ok2)
      side min_tick_improve tick cs

/-- The quantity `max 1 m * max EPS tick` is positive. -/
lemma min_improve_pos (m : ℤ) (tick : ℚ) :
    (0 : ℚ) < (max 1 m : ℤ) * max EPS tick := by
  apply mul_pos
  · exact_mod_cast lt_of_lt_of_le one_pos (le_max_left 1 m)
  · exact lt_of_lt_of_le (by norm_num [EPS]) (le_max_left EPS tick)

/-- One step of the trailing state machine keeps the cached side and never
worsens the cached stop price (long: non-decreasing; short:
non-increasing). -/
lemma updateTrailingStep_mono (st : TrailState) (side : Side) (v : ℚ)
    (proposal : Option ℚ) (m : ℤ) (tick : ℚ) (cid : String)
    (ok1 okc ok2 : Bool)
    (hsl : st.last_trailing_sl = some v)
    (hside : st.last_trailing_side = some side) :
    ∃ v', (updateTrailingStep st side proposal m tick cid ok1 okc ok2).last_trailing_sl = some v' ∧
      (updateTrailingStep st side proposal m tick cid ok1 okc ok2).last_trailing_side = some side ∧
      (side = Side.long → v ≤ v') ∧ (side = Side.short → v' ≤ v) := by
  unfold updateTrailingStep
  cases proposal with
  | none => exact ⟨v, hsl, hside, fun _ => le_refl v, fun _ => le_refl v⟩
  | some new_sl =>
    by_cases hok : trailing_improvement_ok st side new_sl m tick = true
    · simp only [hok, if_true]
      -- the improvement gate passed: for the cached side this means a
      -- strict improvement by at least min_improve
      have himp : (side = Side.long → v < new_sl) ∧ (side = Side.short → new_sl < v) := by
        unfold trailing_improvement_ok at hok
        rw [hsl, hside] at hok
        simp only [ne_eq, not_true_eq_false, if_false] at hok
        cases side with
        | long =>
          simp only [decide_eq_true_eq] at hok
          constructor
          · intro _
            have := min_improve_pos m tick
            linarith
          · intro h; cases h
        | short =>
          simp only [decide_eq_true_eq] at hok
          constructor
          · intro h; cases h
          · intro _
            have := min_improve_pos m tick
            linarith
      unfold updateTrailingReplace
      cases ok1 with
      | true =>
        refine ⟨new_sl, rfl, rfl, fun hs => le_of_lt (himp.1 hs), fun hs => le_of_lt (himp.2 hs)⟩
      | false =>
        cases okc with
        | true =>
          cases ok2 with
          | true =>
            refine ⟨new_sl, rfl, rfl, fun hs => le_of_lt (himp.1 hs), fun hs => le_of_lt (himp.2 hs)⟩
          | false =>
            exact ⟨v, hsl, hside, fun _ => le_refl v, fun _ => le_refl v⟩
        | false =>
          exact ⟨v, hsl, hside, fun _ => le_refl v, fun _ => le_refl v⟩
    · simp only [hok, if_false]
      exact ⟨v, hsl, hside, fun _ => le_refl v, fun _ => le_refl v⟩

/-- Mirrors `_order_status_ok` (ictbot.py lines 2887-2892): an order counts as
placed when its status is NEW, PARTIALLY_FILLED or FILLED.  A query
attempt is modelled as `Option String`: `none` when the query raised or
returned no order, `some s` when an order with status `s` was returned. -/
def order_status_ok (status : String) : Bool :=
  status == "NEW" || status == "PARTIALLY_FILLED" || status == "FILLED"

/-- Mirrors `_detect_order_by_cid` (ictbot.py lines 2895-2908): up to `retries`
query attempts; the first attempt that returns an order with an accepted
status ends the loop with `(true, status)`; otherwise `(false, none)`. -/
def detect_order_by_cid (retries : ℕ) (queries : List (Option String)) :
    Bool × Option String :=
  match retries, queries with
  | 0, _ => (false, none)
  | _ + 1, [] => (false, none)
  | r + 1, q :: qs =>
    match q with
    | some s => if order_status_ok s then (true, some s) else detect_order_by_cid r qs
    | none => detect_order_by_cid r qs

/-- Venue calls issued by the idempotent entry path. -/
inductive EntryEvent where
  | submit (cid : String)
  | query (cid : String)
deriving DecidableEq, Repr

/-- Mirrors `place_market_entry_idempotent` (ictbot.py lines 2911-2936): submit one
MARKET order tagged with the fresh client id `cid`; on success return
`(true, cid)`; on a transport error fall back to
`_detect_order_by_cid(..., retries=2, delay=0.3)` and report placed iff
the order was found with an accepted status.  `submitOk` is the outcome of
the single `new_order` call and `queries` the venue's per-attempt answers
to `get_order`.  Besides the source's `(placed, cid)` result, the
embedding returns the trace of venue calls issued. -/
def place_market_entry_idempotent (cid : String) (submitOk : Bool)
    (queries : List (Option String)) :
    (Bool × String) × List EntryEvent :=
  if submitOk then
    ((true, cid), [EntryEvent.submit cid])
  else
    let d := detect_order_by_cid 2 queries
    ((d.1, cid),
      EntryEvent.submit cid :: (queries.take 2).map (fun _ => EntryEvent.query cid))

/-- The fallback `detect_order_by_cid` succeeds iff one of the first `retries` query
answers is an order with an accepted status. -/
lemma detect_order_by_cid_iff (retries : ℕ) (queries : List (Option String)) :
    (detect_order_by_cid retries queries).1 = true ↔
      ∃ s, some s ∈ queries.take retries ∧ order_status_ok s = true := by
  induction retries generalizing queries with
  | zero => simp [detect_order_by_cid]
  | succ r ih =>
    cases queries with
    | nil => simp [detect_order_by_cid]
    | cons q qs =>
      cases q with
      | none =>
        simp only [detect_order_by_cid, ih, List.take_cons]
        constructor
        · rintro ⟨s, hs, hok⟩
          exact ⟨s, List.mem_cons_of_mem _ hs, hok⟩
        · rintro ⟨s, hs, hok⟩
          rcases List.mem_cons.mp hs with h | h
          · cases h
          · exact ⟨s, h, hok⟩
      | some s0 =>
        by_cases hok0 : order_status_ok s0 = true
        · have hd : detect_order_by_cid (r + 1) (some s0 :: qs) = (true, some s0) := by
            simp [detect_order_by_cid, hok0]
          rw [hd, List.take_succ_cons]
          constructor
          · intro _
            exact ⟨s0, List.mem_cons_self _ _, hok0⟩
          · intro _; rfl
        · have hd : detect_order_by_cid (r + 1) (some s0 :: qs) = detect_order_by_cid r qs := by
            simp [detect_order_by_cid, hok0]
          rw [hd, ih, List.take_succ_cons]
          constructor
          · rintro ⟨s, hs, hok⟩
            exact ⟨s, List.mem_cons_of_mem _ hs, hok⟩
          · rintro ⟨s, hs, hok⟩
            rcases List.mem_cons.mp hs with h | h
            · rw [Option.some_inj.mp h] at hok; exact absurd hok hok0
            · exact ⟨s, h, hok⟩

/-- C2: Idempotent market entry.  For every submission outcome and every
sequence of query answers, `place_market_entry_idempotent` issues exactly
one submit call (so a single invocation can never create two entry
orders), every query it issues is tagged with the same client id, and it
reports the entry as placed iff the submission succeeded or one of the
(at most two) fallback queries found the order with status in
{NEW, PARTIALLY_FILLED, FILLED}. -/
theorem entry_idempotent (cid : String) (submitOk : Bool)
    (queries : List (Option String)) :
    (((place_market_entry_idempotent cid submitOk queries).2.filter
        (fun e => match e with | EntryEvent.submit _ => true | _ => false)) =
      [EntryEvent.submit cid]) ∧
    (∀ e ∈ (place_market_entry_idempotent cid submitOk queries).2,
      e = EntryEvent.submit cid ∨ e = EntryEvent.query cid) ∧
    ((place_market_entry_idempotent cid submitOk queries).1.1 = true ↔
      submitOk = true ∨
        ∃ s, some s ∈ queries.take 2 ∧ order_status_ok s = true) := by
  unfold place_market_entry_idempotent
  cases submitOk with
  | true =>
    refine ⟨by simp, ?_, by simp⟩
    intro e he
    simp only [if_true] at he
    simp only [List.mem_singleton] at he
    exact Or.inl he
  | false =>
    simp only [Bool.false_eq_true, if_false]
    refine ⟨?_, ?_, ?_⟩
    · simp only [List.filter_cons, List.filter_map]
      simp
    · intro e he
      simp only [List.mem_cons, List.mem_map] at he
      rcases he with h | ⟨a, _, h⟩
      · exact Or.inl h
      · exact Or.inr h.symm
    · simpa using detect_order_by_cid_iff 2 queries

/-- C1: the failing execution of the trailing replace protocol
(`update_trailing_sl`, ictbot.py lines 2226-2272).  With a tracked
previous stop (client id `"prev"`), a rejected first placement, a
successful cancel and a rejected retry, the code issues the cancel of the
previously tracked protective stop between the two failed placements —
the trace contains `cancelByCid "prev"` — yet reports failure with the
cache unchanged (and logs "kept previous protective stop").  The venue is
left with no protective stop, contradicting the claim that after two
failed attempts the previous stop is kept and the position is never left
unprotected. -/
theorem trailing_replace_both_fail_cancels_previous :
    updateTrailingReplace
      { last_trailing_sl := some 100, last_trailing_side := some Side.long,
        last_trailing_client_id := some "prev", last_trailing_order_id := none }
      Side.long 105 "new" false true false =
      ({ last_trailing_sl := some 100, last_trailing_side := some Side.long,
         last_trailing_client_id := some "prev", last_trailing_order_id := none },
       [TrailEvent.placeStop "new" 105, TrailEvent.cancelByCid "prev",
        TrailEvent.placeStop "new" 105],
       false) ∧
    TrailEvent.cancelByCid "prev" ∈
      (updateTrailingReplace
        { last_trailing_sl := some 100, last_trailing_side := some Side.long,
          last_trailing_client_id := some "prev", last_trailing_order_id := none }
        Side.long 105 "new" false true false).2.1 := by
  constructor
  · rfl
  · decide

/-- C4: Trailing monotonic ratchet.  Across any sequence of
`update_trailing_sl` calls for the same side, the tracked stop price
`last_trailing_sl` is non-decreasing for a long position and
non-increasing for a short position, because an update is applied only if
it improves the previous tracked stop by at least the configured minimum
tick count for that side. -/
theorem trailing_ratchet_monotone (st : TrailState) (side : Side) (v : ℚ)
    (m : ℤ) (tick : ℚ) (calls : List TrailCall)
    (hsl : st.last_trailing_sl = some v)
    (hside : st.last_trailing_side = some side) :
    ∃ v', (runTrailingSeq st side m tick calls).last_trailing_sl = some v' ∧
      (side = Side.long → v ≤ v') ∧ (side = Side.short → v' ≤ v) := by
  induction calls generalizing st v with
  | nil => exact ⟨v, hsl, fun _ => le_refl v, fun _ => le_refl v⟩
  | cons c cs ih =>
    obtain ⟨v1, h1, hside1, hlong1, hshort1⟩ :=
      updateTrailingStep_mono st side v c.proposal m tick c.newCid c.ok1 c.okCancel c.ok2 hsl hside
    obtain ⟨v', h', hlong', hshort'⟩ := ih _ v1 h1 hside1
    refine ⟨v', h', ?_, ?_⟩
    · intro hs; exact le_trans (hlong1 hs) (hlong' hs)
    · intro hs; exact le_trans (hshort' hs) (hshort1 hs)

/-- Witness for C4: a concrete long-side state and call sequence (one
accepted improvement, one rejected worsening, one venue double-failure)
on which the tracked stop ends at `110 ≥ 100`. -/
theorem trailing_ratchet_monotone_witness :
    ({ last_trailing_sl := some 100, last_trailing_side := some Side.long,
       last_trailing_client_id := some "t1", last_trailing_order_id := none } : TrailState).last_trailing_sl = some 100 ∧
    ∃ v', (runTrailingSeq
        { last_trailing_sl := some 100, last_trailing_side := some Side.long,
          last_trailing_client_id := some "t1", last_trailing_order_id := none }
        Side.long 2 (1/10)
        [⟨some 110, "t2", true, true, true⟩,
         ⟨some 90, "t3", true, true, true⟩,
         ⟨some 120, "t4", false, true, false⟩]).last_trailing_sl = some v' ∧
      (Side.long = Side.long → (100 : ℚ) ≤ v') ∧
      (Side.long = Side.short → v' ≤ 100) :=
  ⟨rfl, trailing_ratchet_monotone _ Side.long 100 2 (1/10) _ rfl rfl⟩

/-- State of the per-symbol cumulative-realized tracker driven by
ACCOUNT_UPDATE events (ictbot.py lines 1236-1258): `baseline` is
`st.account_cr[symbol]` (absent before the first update), `realized` is
`st.realized_today`. -/
structure CrState where
  baseline : Option ℚ
  realized : ℚ
deriving DecidableEq, Repr

/-- One ACCOUNT_UPDATE `cr` sample for the symbol (ictbot.py lines
1240-1256): the first sample only sets the baseline; afterwards the delta
`cr - prev` is added to `realized_today` when non-zero. -/
def applyCr (s : CrState) (cr : ℚ) : CrState :=
  match s.baseline with
  | none => { baseline := some cr, realized := s.realized }
  | some prev =>
    let delta := cr - prev
    if delta ≠ 0 then { baseline := some cr, realized := s.realized + delta }
    else s

/-- The value of `st.realized_today` after a day's sequence of cumulative-realized
samples, starting from a fresh state. -/
def realizedFromCrs (crs : List ℚ) : ℚ :=
  (crs.foldl applyCr ⟨none, 0⟩).realized

/-- Mirrors `daily_guardrails_blocked` (ictbot.py lines 1960-1969). -/
def daily_guardrails_blocked (trades_today max_trades_per_day : ℤ)
    (realized_today day_start_equity max_daily_loss_pct : ℚ) : Bool :=
  if trades_today ≥ max_trades_per_day then true
  else
    let realized_day_loss := max 0 (-realized_today)
    if realized_day_loss / max EPS day_start_equity ≥ max_daily_loss_pct then true
    else false

/-- Modelled from the spec: "realized-loss-today (losses only, gains never
net them out for this check)" — the sum of the magnitudes of the negative
realized deltas of the day's cumulative-realized samples.  This is the
quantity the claim says the guardrail uses; the source uses the net
`realized_today` instead. -/
def spec_losses_only_today (crs : List ℚ) : ℚ :=
  (crs.foldl
    (fun (s : Option ℚ × ℚ) cr =>
      match s.1 with
      | none => (some cr, s.2)
      | some prev => (some cr, s.2 + max 0 (prev - cr)))
    (none, 0)).2

/-- Folding `applyCr` from an established baseline: the baseline tracks the
last sample and `realized` accumulates exactly the net move
`last - first`. -/
lemma foldl_applyCr_closed (l : List ℚ) :
    ∀ (b r : ℚ),
      (l.foldl applyCr ⟨some b, r⟩).realized = r + (l.getLastD b - b) := by
  induction l with
  | nil => intro b r; simp
  | cons c cs ih =>
    intro b r
    by_cases hc : c - b ≠ 0
    · have hstep : applyCr ⟨some b, r⟩ c = ⟨some c, r + (c - b)⟩ := by
        simp [applyCr, hc]
      rw [List.foldl_cons, hstep, ih c (r + (c - b)), List.getLastD_cons]
      ring
    · have hcb : c = b := by
        push_neg at hc
        linarith [sub_eq_zero.mp hc]
      have hstep : applyCr ⟨some b, r⟩ c = ⟨some b, r⟩ := by
        simp [applyCr, hc]
      rw [List.foldl_cons, hstep, ih b r, List.getLastD_cons, hcb]

/-- The net realized PnL after a day's samples is last-minus-first. -/
lemma realizedFromCrs_eq (c0 : ℚ) (rest : List ℚ) :
    realizedFromCrs (c0 :: rest) = rest.getLastD c0 - c0 := by
  unfold realizedFromCrs
  rw [List.foldl_cons]
  have hstep : applyCr ⟨none, 0⟩ c0 = ⟨some c0, 0⟩ := by simp [applyCr]
  rw [hstep, foldl_applyCr_closed rest c0 0, zero_add]

/-- Counterexample to C5: cumulative-realized samples `0, -100, 0` (a
realized loss of 100 followed by a realized gain of 100) with day-start
equity 1000 and max daily loss fraction 5%.  The claim's losses-only
accounting gives a 10% loss fraction, so the claim says the guardrail
blocks; the source's `daily_guardrails_blocked` sees the net
`realized_today = 0` and does not block — the gain netted the loss out. -/
theorem daily_guardrail_losses_only_counterexample :
    daily_guardrails_blocked 0 5 (realizedFromCrs [0, -100, 0]) 1000 (1/20) = false ∧
    spec_losses_only_today [0, -100, 0] / max EPS 1000 ≥ 1/20 := by
  constructor
  · norm_num [daily_guardrails_blocked, realizedFromCrs, applyCr, EPS,
      List.foldl_cons, List.foldl_nil]
  · norm_num [spec_losses_only_today, EPS, List.foldl_cons, List.foldl_nil]

/-- C5 (amended): `daily_guardrails_blocked` blocks exactly when
`trades_today ≥ max_trades_per_day` or the clamped **net** realized loss
of the day — `max 0 (first - last)` over the day's cumulative-realized
samples, so realized gains net realized losses out — as a fraction of
day-start equity (floored at `EPS`) reaches the max daily loss fraction;
consequently a later realized gain can lift the loss block before day
rollover. -/
theorem daily_guardrail_blocked_iff (c0 : ℚ) (rest : List ℚ)
    (trades maxT : ℤ) (equity pct : ℚ) :
    daily_guardrails_blocked trades maxT (realizedFromCrs (c0 :: rest)) equity pct = true ↔
      (trades ≥ maxT ∨ max 0 (c0 - rest.getLastD c0) / max EPS equity ≥ pct) := by
  rw [realizedFromCrs_eq]
  unfold daily_guardrails_blocked
  by_cases ht : trades ≥ maxT
  · simp [ht]
  · simp only [ht, if_false, ge_iff_le, false_or]
    have hneg : -(rest.getLastD c0 - c0) = c0 - rest.getLastD c0 := by ring
    rw [hneg]
    by_cases hc : pct ≤ max 0 (c0 - rest.getLastD c0) / max EPS equity
    · simp [hc]
    · simp [hc]

/-- Configuration fields consumed by `funding_gate`. -/
structure FundingCfg where
  funding_aware_enable : Bool
  funding_window_min : ℤ
  funding_window_symmetric : Bool
  funding_block_near : Bool
  funding_high_abs_bps : ℚ
  funding_penalty_score : ℚ
  funding_risk_mult_high : ℚ
deriving DecidableEq, Repr

/-- Result of `funding_gate`: `(block, score_penalty, risk_mult, meta.reason)`. -/
structure FundingGateResult where
  block : Bool
  score_penalty : ℚ
  risk_mult : ℚ
  reason : Option String
deriving DecidableEq, Repr

/-- Mirrors `funding_gate` (ictbot.py lines 2760-2801).  `rate` and `nft` are the
result of `current_funding_info` (`none` on error / missing field) and
`last_server_ms` the cached server-time sample. -/
def funding_gate (cfg : FundingCfg) (rate : Option ℚ) (nft : Option ℤ)
    (last_server_ms : Option ℤ) : FundingGateResult :=
  if ¬ cfg.funding_aware_enable then ⟨false, 0, 1, none⟩
  else
    match nft, last_server_ms with
    | some nftv, some sms =>
      let mins_to : ℚ := ((nftv - sms : ℤ) : ℚ) / 60000
      let window : ℚ := ((max 1 cfg.funding_window_min : ℤ) : ℚ)
      let near : Bool :=
        if cfg.funding_window_symmetric then decide (|mins_to| ≤ window)
        else decide (0 ≤ mins_to ∧ mins_to ≤ window)
      let abs_bps : ℚ := |rate.getD 0| * 10000
      let hi : Bool := decide (abs_bps ≥ cfg.funding_high_abs_bps)
      if near && cfg.funding_block_near then
        ⟨true, 0, 1, some "near_funding_block"⟩
      else
        ⟨false,
          if near then cfg.funding_penalty_score else 0,
          if hi then cfg.funding_risk_mult_high else 1,
          some (if near then "near_penalty"
                else if hi then "high_funding_risk" else "ok")⟩
    | _, _ =>
      -- `if nft is None or st.last_server_ms is None` (line 2772): fail
      -- closed whenever either timing input is missing
      ⟨true, 0, 1, some "time_unknown"⟩

/-- Counterexample to C6: with the funding gate enabled, an unknown
next-funding-time and **no** server-time sample, `funding_gate` blocks
(reason `time_unknown`), whereas the claim says that without a server-time
sample the gate does not block and the candidate proceeds. -/
theorem funding_gate_no_server_time_counterexample :
    (funding_gate ⟨true, 7, false, true, 10, 1/10, 1/2⟩ none none none).block = true ∧
    (funding_gate ⟨true, 7, false, true, 10, 1/10, 1/2⟩ none none none).reason =
      some "time_unknown" := by
  constructor <;> rfl

/-- C6 (amended): with the funding gate enabled, `funding_gate` hard-blocks
whenever the next-funding-time is unknown **or** the server-time sample is
unavailable — it fails closed in both cases, not only when a server-time
sample exists. -/
theorem funding_gate_unknown_timing_blocks (cfg : FundingCfg)
    (rate : Option ℚ) (nft : Option ℤ) (sms : Option ℤ)
    (henable : cfg.funding_aware_enable = true)
    (hunknown : nft = none ∨ sms = none) :
    (funding_gate cfg rate nft sms).block = true := by
  unfold funding_gate
  rw [henable]
  simp only [not_true_eq_false, if_false]
  rcases hunknown with h | h <;> subst h
  · rfl
  · cases nft <;> rfl

/-- Witness for C6 (amended), at a concrete configuration with a known
funding rate but a missing server-time sample. -/
theorem funding_gate_unknown_timing_blocks_witness :
    (⟨true, 7, true, true, 10, 1/10, 1/2⟩ : FundingCfg).funding_aware_enable = true ∧
    ((some (3 : ℤ)) = (none : Option ℤ) ∨ (none : Option ℤ) = none) ∧
    (funding_gate ⟨true, 7, true, true, 10, 1/10, 1/2⟩ (some (1/10000)) (some 3) none).block = true :=
  ⟨rfl, Or.inr rfl,
    funding_gate_unknown_timing_blocks _ (some (1/10000)) (some 3) none rfl (Or.inr rfl)⟩

/-- An open order as returned by `openOrders` (the fields
`reconcile_startup_orders` reads; `type` and `side` are kept uppercase as
the source uppercases them before comparing).  `updateTime` models
`int(o.get("updateTime", o.get("time", 0)) or 0)`. -/
structure OpenOrder where
  orderId : ℤ
  clientOrderId : Option String
  typ : String
  side : String
  reduceOnly : Bool
  closePosition : Bool
  stopPrice : Option ℚ
  updateTime : ℤ
deriving DecidableEq, Repr

/-- A protective stop in the partition of `reconcile_startup_orders`
(ictbot.py lines 2653-2663): `STOP_MARKET` with `closePosition`. -/
def isProt (o : OpenOrder) : Bool :=
  o.typ == "STOP_MARKET" && o.closePosition

/-- A take-profit in the partition: `TAKE_PROFIT_MARKET` with `reduceOnly`
(and not already classified as a protective stop). -/
def isTp (o : OpenOrder) : Bool :=
  !(isProt o) && (o.typ == "TAKE_PROFIT_MARKET" && o.reduceOnly)

/-- Python's `max(candidates, key=...)` keeps the first element attaining
the maximal key (a later element replaces the current best only when
strictly greater).  Orders are indexed so that `o is keep_prot` (object
identity) is the index equality. -/
def argmaxUpdateTime : List (ℕ × OpenOrder) → Option (ℕ × OpenOrder)
  | [] => none
  | x :: xs =>
    some (xs.foldl
      (fun best y => if y.2.updateTime > best.2.updateTime then y else best) x)

/-- The insertion-ordered `uniq` map of `reconcile_startup_orders`
(ictbot.py lines 2718-2728): first order per distinct `stopPrice`, orders
without a `stopPrice` skipped. -/
def uniqByStopPrice (l : List (ℕ × OpenOrder)) : List (ℚ × (ℕ × OpenOrder)) :=
  l.foldl
    (fun acc p =>
      match p.2.stopPrice with
      | none => acc
      | some sp => if acc.any (fun kv => kv.1 == sp) then acc else acc ++ [(sp, p)])
    []

/-- Result of reconciliation: the order ids cancelled (in call order) and
the rehydrated trailing cache. -/
structure ReconcileResult where
  cancelled : List ℤ
  trail : TrailState
deriving DecidableEq, Repr

/-- Mirrors `reconcile_startup_orders` (ictbot.py lines 2634-2742) as a pure
function of the live position (`net`, `gross`), the venue's open orders
and the trailing cache.  Cancels are collected in the order the source
issues them; every open order carries an `orderId` (as the venue
guarantees), so each `_cancel` emits that id. -/
def reconcile_startup_orders (net gross : ℚ) (openos : List OpenOrder)
    (_st : TrailState) : ReconcileResult :=
  let side_live : Option Side :=
    if 0 < net then some Side.long else if net < 0 then some Side.short else none
  let os := openos.enum
  let prot := os.filter (fun p => isProt p.2)
  let tps := os.filter (fun p => isTp p.2)
  match side_live, decide (|gross| ≤ EPS) with
  | none, _ | some _, true =>
    -- flat: cancel all protective stops and TPs, clear the trailing cache
    { cancelled := (prot ++ tps).map (fun p => p.2.orderId)
      trail := ⟨none, none, none, none⟩ }
  | some side, false =>
    let want_exit_side := match side with | .long => "SELL" | .short => "BUY"
    let candidates := prot.filter (fun p => p.2.side == want_exit_side)
    let keep_prot := argmaxUpdateTime candidates
    let cancel1 :=
      match keep_prot with
      | none => []
      | some k => (candidates.filter (fun p => p.1 ≠ k.1)).map (fun p => p.2.orderId)
    let cancel2 :=
      (prot.filter (fun p =>
        (match keep_prot with | none => true | some k => p.1 ≠ k.1) &&
          p.2.side ≠ want_exit_side)).map (fun p => p.2.orderId)
    let trail : TrailState :=
      match keep_prot with
      | some k =>
        { last_trailing_sl := k.2.stopPrice
          last_trailing_side := some side
          last_trailing_client_id := k.2.clientOrderId
          last_trailing_order_id := some k.2.orderId }
      | none => ⟨none, some side, none, none⟩
    let tp_side := want_exit_side
    let good_tps := tps.filter (fun p => p.2.side == tp_side)
    let uniq := uniqByStopPrice good_tps
    let sortedUniq :=
      uniq.mergeSort (fun a b =>
        match side with
        | .long => decide (b.1 ≤ a.1)
        | .short => decide (a.1 ≤ b.1))
    let cancel4 := (sortedUniq.drop 2).map (fun kv => kv.2.2.orderId)
    let cancel5 :=
      (tps.filter (fun p => p.2.side ≠ tp_side)).map (fun p => p.2.orderId)
    { cancelled := cancel1 ++ cancel2 ++ cancel4 ++ cancel5
      trail := trail }

/-- C3 failing input: a long position with three correct-side reduce-only
`TAKE_PROFIT_MARKET` orders sharing the same `stopPrice = 100`.  The
`uniq` map collapses them to a single representative, the keep/cancel walk
keeps it (kept < 2) and never revisits the duplicates, and the wrong-side
pass does not touch them — so **nothing is cancelled** and all three
equal-priced take-profits survive, contradicting the claim (and the
function's own docstring) that at most two correct-side take-profits with
distinct stop prices remain. -/
theorem reconcile_duplicate_tp_prices_not_cancelled :
    (reconcile_startup_orders 1 1
      [⟨11, some "tp1", "TAKE_PROFIT_MARKET", "SELL", true, false, some 100, 5⟩,
       ⟨12, some "tp2", "TAKE_PROFIT_MARKET", "SELL", true, false, some 100, 6⟩,
       ⟨13, some "tp3", "TAKE_PROFIT_MARKET", "SELL", true, false, some 100, 7⟩]
      ⟨none, none, none, none⟩).cancelled = [] ∧
    ([⟨11, some "tp1", "TAKE_PROFIT_MARKET", "SELL", true, false, some 100, 5⟩,
      ⟨12, some "tp2", "TAKE_PROFIT_MARKET", "SELL", true, false, some (100:ℚ), 6⟩,
      ⟨13, some "tp3", "TAKE_PROFIT_MARKET", "SELL", true, false, some 100, 7⟩] :
        List OpenOrder).all
      (fun o => isTp o && o.side == "SELL" && o.stopPrice == some 100) = true := by
  constructor
  · norm_num [reconcile_startup_orders, EPS, List.enum, List.enumFrom,
      uniqByStopPrice, argmaxUpdateTime, isProt, isTp, List.mergeSort,
      List.filter, List.foldl]
  · norm_num [isTp, isProt, List.all]

/-- Mirrors `within_bps` (ictbot.py lines 397-402): symmetric basis-point
tolerance (the finiteness guard is vacuous over `ℚ`). -/
def within_bps (a b tol_bps : ℚ) : Bool :=
  let denom := max EPS ((|a| + |b|) / 2)
  decide (|a - b| / denom * 10000 ≤ tol_bps)

/-- Mirrors `bps_distance` (ictbot.py lines 405-408). -/
def bps_distance (a b : ℚ) : ℚ :=
  let denom := max EPS ((|a| + |b|) / 2)
  |a - b| / denom * 10000

/-- The greedy chain grouping of `_cluster_levels_bps` (ictbot.py lines
1378-1384): `cur` holds the current group in reverse, `last` its most
recently appended member (`out[-1][-1]`). -/
def clusterChain (tol : ℚ) : List ℚ → ℚ → List ℚ → List (List ℚ)
  | cur, _, [] => [cur.reverse]
  | cur, last, p :: ps =>
    if within_bps p last tol then clusterChain tol (p :: cur) p ps
    else cur.reverse :: clusterChain tol [p] p ps

/-- The representative of a cluster (ictbot.py lines 1386-1388): the member
nearest the cluster mean; Python's `min` keeps the first minimal member. -/
def clusterRep (g : List ℚ) : ℚ :=
  match g with
  | [] => 0
  | x :: xs =>
    let m := (x :: xs).sum / (x :: xs).length
    xs.foldl (fun best v => if |v - m| < |best - m| then v else best) x

/-- Mirrors `_cluster_levels_bps` (ictbot.py lines 1374-1389). -/
def cluster_levels_bps (levels : List ℚ) (tol : ℚ) : List ℚ :=
  match levels.mergeSort (fun a b => decide (a ≤ b)) with
  | [] => []
  | x :: xs => (clusterChain tol [x] x xs).map clusterRep

/-- A `(price, weight, tag)` liquidity-level triple of `build_pools`. -/
structure PoolLevel where
  price : ℚ
  weight : ℚ
  tag : String
deriving DecidableEq, Repr

/-- Per cluster-representative price `p`, the retained input level
(ictbot.py lines 1890-1897): among the levels within tolerance of `p`,
Python's `min` with key `(bps_distance, -weight)` — nearest first, higher
weight breaking distance ties, first such member kept. -/
def poolBetter (p : ℚ) (best u : PoolLevel) : Bool :=
  decide (bps_distance u.price p < bps_distance best.price p ∨
    (bps_distance u.price p = bps_distance best.price p ∧
      -u.weight < -best.weight))

def bestForPrice (levels : List PoolLevel) (tol : ℚ) (p : ℚ) :
    Option PoolLevel :=
  match levels.filter (fun t => within_bps t.price p tol) with
  | [] => none
  | t :: ts => some (ts.foldl (fun best u => if poolBetter p best u then u else best) t)

/-- The final "Cluster & top-K per side" block of `build_pools` (ictbot.py
lines 1885-1898), as a function of the accumulated per-side level lists:
cluster each side's prices with the symmetric bps tolerance, keep the
first `topk` cluster representatives (the clustered list is in ascending
price order), and map each representative to its retained input level. -/
def poolsClusterTopK (up dn : List PoolLevel) (tol : ℚ) (topk : ℕ) :
    List PoolLevel × List PoolLevel :=
  (((cluster_levels_bps (up.map (·.price)) tol).take topk).filterMap
      (bestForPrice up tol),
   ((cluster_levels_bps (dn.map (·.price)) tol).take topk).filterMap
      (bestForPrice dn tol))

/-- Counterexample to C8: two resistance-side levels in separate clusters,
prices 100 (weight 1) and 200 (weight 9), tolerance 1 bps, K = 1.  The
code truncates the clustered price list — ascending by price — to its
first K entries, so the retained list is the weight-1 level at 100; the
top-K-by-weight selection the claim describes would retain the weight-9
level at 200. -/
theorem pools_topk_not_by_weight_counterexample :
    (poolsClusterTopK [⟨100, 1, "A"⟩, ⟨200, 9, "B"⟩] [] 1 1).1 = [⟨100, 1, "A"⟩] ∧
    (⟨200, 9, "B"⟩ : PoolLevel) ∈ [(⟨100, 1, "A"⟩ : PoolLevel), ⟨200, 9, "B"⟩] ∧
    (1 : ℚ) < 9 ∧
    (⟨200, 9, "B"⟩ : PoolLevel) ∉ (poolsClusterTopK [⟨100, 1, "A"⟩, ⟨200, 9, "B"⟩] [] 1 1).1 := by
  have h : (poolsClusterTopK [⟨100, 1, "A"⟩, ⟨200, 9, "B"⟩] [] 1 1).1 = [⟨100, 1, "A"⟩] := by
    norm_num [poolsClusterTopK, cluster_levels_bps, clusterChain, clusterRep,
      bestForPrice, poolBetter, within_bps, bps_distance, EPS, List.mergeSort,
      List.filter, List.filterMap]
  refine ⟨h, by norm_num, by norm_num, ?_⟩
  rw [h]
  simp

/-- A fold that repeatedly chooses between the accumulator and the next
element stays inside the list. -/
lemma foldl_choice_mem {α : Type} (g : α → α → Bool) :
    ∀ (ts : List α) (t : α),
      ts.foldl (fun best u => if g best u then u else best) t ∈ t :: ts := by
  intro ts
  induction ts with
  | nil => intro t; simp
  | cons u us ih =>
    intro t
    rw [List.foldl_cons]
    by_cases hg : g t u = true
    · simp only [hg, if_true]
      have := ih u
      simp only [List.mem_cons] at this ⊢
      tauto
    · simp only [hg, if_false]
      have := ih t
      simp only [List.mem_cons] at this ⊢
      tauto

/-- The function `bestForPrice` returns a member of the input level list. -/
lemma bestForPrice_mem (levels : List PoolLevel) (tol p : ℚ) (x : PoolLevel)
    (h : bestForPrice levels tol p = some x) : x ∈ levels := by
  unfold bestForPrice at h
  rcases hf : levels.filter (fun t => within_bps t.price p tol) with _ | ⟨t, ts⟩
  · rw [hf] at h; cases h
  · rw [hf] at h
    simp only [Option.some_inj] at h
    have hm : x ∈ t :: ts := by
      rw [← h]
      exact foldl_choice_mem (poolBetter p) ts t
    have : x ∈ levels.filter (fun t => within_bps t.price p tol) := by
      rw [hf]; exact hm
    exact (List.mem_filter.mp this).1

/-- C8 (amended): the cluster-and-top-K stage of `build_pools` returns, per
side, at most K levels, each drawn from that side's input level list; the
truncation keeps the first K clusters of the ascending-price clustered
list (not the top K by weight), and each retained entry is the input
level nearest its cluster representative, higher weight breaking distance
ties. -/
theorem pools_cluster_topk_shape (up dn : List PoolLevel) (tol : ℚ) (k : ℕ) :
    (poolsClusterTopK up dn tol k).1.length ≤ k ∧
    (poolsClusterTopK up dn tol k).2.length ≤ k ∧
    (∀ x ∈ (poolsClusterTopK up dn tol k).1, x ∈ up) ∧
    (∀ x ∈ (poolsClusterTopK up dn tol k).2, x ∈ dn) := by
  refine ⟨?_, ?_, ?_, ?_⟩
  · exact le_trans (List.length_filterMap_le _ _) (by simp [List.length_take])
  · exact le_trans (List.length_filterMap_le _ _) (by simp [List.length_take])
  · intro x hx
    obtain ⟨p, _, hp⟩ := List.mem_filterMap.mp hx
    exact bestForPrice_mem up tol p x hp
  · intro x hx
    obtain ⟨p, _, hp⟩ := List.mem_filterMap.mp hx
    exact bestForPrice_mem dn tol p x hp

/-- A closed candle delivered by the market stream
(`[t, o, h, l, c, v]`, ictbot.py lines 1078-1085). -/
structure Candle where
  t : ℤ
  o : ℚ
  h : ℚ
  l : ℚ
  c : ℚ
  v : ℚ
deriving DecidableEq, Repr

/-- One closed-candle delivery into a per-timeframe buffer
(`WSManager._run_market_ws.on_message`, ictbot.py lines 1087-1093): the
bar is appended only when the buffer is empty or its **last** entry has a
different open time (`self.st.kl_1m[-1][0] != k[0]`); the buffer is a
`deque(maxlen=maxlen)`, so an append at capacity evicts the oldest bar. -/
def appendClosedCandle (maxlen : ℕ) (buf : List Candle) (k : Candle) :
    List Candle :=
  match buf.getLast? with
  | some last =>
    if last.t ≠ k.t then
      if buf.length < maxlen then buf ++ [k]
      else (buf ++ [k]).drop (buf.length + 1 - maxlen)
    else buf
  | none =>
    if 0 < maxlen then [k] else ([k].drop (1 - maxlen))

/-- A whole sequence of closed-candle deliveries from the feed. -/
def runDeliveries (maxlen : ℕ) (buf : List Candle) : List Candle → List Candle
  | [] => buf
  | k :: ks => runDeliveries maxlen (appendClosedCandle maxlen buf k) ks

/-- Counterexample to C9: deliveries with open times 60000, 120000, 60000
(an out-of-order redelivery of the first bar).  The append is only
de-duplicated against the **last** buffered bar, so the stale bar is
appended again: the buffer ends ordered `[60000, 120000, 60000]` — neither
sorted by open time nor unique. -/
theorem candle_buffer_out_of_order_counterexample :
    (runDeliveries 500 []
      [⟨60000, 1, 2, 0, 1, 5⟩, ⟨120000, 1, 2, 0, 1, 5⟩, ⟨60000, 1, 2, 0, 1, 5⟩]).map
        Candle.t = [60000, 120000, 60000] ∧
    ¬ List.Pairwise (fun a b : ℤ => a < b)
      ((runDeliveries 500 []
        [⟨60000, 1, 2, 0, 1, 5⟩, ⟨120000, 1, 2, 0, 1, 5⟩, ⟨60000, 1, 2, 0, 1, 5⟩]).map
          Candle.t) := by
  have h : (runDeliveries 500 []
      [⟨60000, 1, 2, 0, 1, 5⟩, ⟨120000, 1, 2, 0, 1, 5⟩, ⟨60000, 1, 2, 0, 1, 5⟩]).map
        Candle.t = [60000, 120000, 60000] := by
    norm_num [runDeliveries, appendClosedCandle, List.getLast?]
  refine ⟨h, ?_⟩
  rw [h]
  intro hp
  have h2 := (List.pairwise_cons.mp (List.pairwise_cons.mp hp).2).1 60000 (by simp)
  omega

/-- The single-delivery step preserves strict open-time ordering when the
delivered bar's open time is at least every buffered bar's. -/
lemma appendClosedCandle_sorted (maxlen : ℕ) (buf : List Candle) (k : Candle)
    (hs : List.Pairwise (fun a b : ℤ => a < b) (buf.map Candle.t))
    (hge : ∀ b ∈ buf, b.t ≤ k.t) :
    List.Pairwise (fun a b : ℤ => a < b)
      ((appendClosedCandle maxlen buf k).map Candle.t) ∧
    ∀ b ∈ appendClosedCandle maxlen buf k, b.t ≤ k.t := by
  unfold appendClosedCandle
  rcases hlast : buf.getLast? with _ | ⟨last⟩
  · have hbuf : buf = [] := by
      cases buf with
      | nil => rfl
      | cons a as => simp [List.getLast?_eq_getLast] at hlast
    subst hbuf
    by_cases hm : 0 < maxlen
    · simp [hm]
    · simp only [hm, if_false]
      have : 1 - maxlen = 1 := by omega
      rw [this]
      simp
  · obtain ⟨l', rfl⟩ : ∃ l', buf = l' ++ [last] := List.getLast?_eq_some_iff.mp hlast
    have hmem : last ∈ l' ++ [last] := by simp
    by_cases heq : last.t = k.t
    · simp only [heq, ne_eq, not_true_eq_false, if_false]
      exact ⟨hs, hge⟩
    · have hne : last.t ≠ k.t := heq
      simp only [hne, ne_eq, not_false_eq_true, if_true]
      -- every buffered bar is at most last.t (sortedness), and
      -- last.t < k.t (hge with the inequality), so all bars are < k.t
      have hlastk : last.t < k.t := lt_of_le_of_ne (hge last hmem) hne
      have hpre : ∀ b ∈ l', b.t < last.t := by
        intro b hb
        have hp := hs
        rw [List.map_append, List.pairwise_append] at hp
        exact hp.2.2 b.t (List.mem_map_of_mem Candle.t hb) last.t (by simp)
      have hklt : ∀ b ∈ l' ++ [last], b.t < k.t := by
        intro b hb
        rcases List.mem_append.mp hb with h | h
        · exact lt_trans (hpre b h) hlastk
        · rw [List.mem_singleton.mp h]; exact hlastk
      have hsorted0 : List.Pairwise (fun a b : ℤ => a < b)
          (((l' ++ [last]).map Candle.t) ++ [k.t]) := by
        rw [List.pairwise_append]
        refine ⟨hs, by simp, ?_⟩
        intro a ha b hb
        rw [List.mem_singleton] at hb
        obtain ⟨cb, hcb, rfl⟩ := List.mem_map.mp ha
        rw [hb]
        exact hklt cb hcb
      have hsorted : List.Pairwise (fun a b : ℤ => a < b)
          (((l' ++ [last]) ++ [k]).map Candle.t) := by
        rw [List.map_append]
        simpa using hsorted0
      have hmemk : ∀ b ∈ (l' ++ [last]) ++ [k], b.t ≤ k.t := by
        intro b hb
        rcases List.mem_append.mp hb with h | h
        · exact le_of_lt (hklt b h)
        · rw [List.mem_singleton.mp h]
      constructor
      · by_cases hlen : (l' ++ [last]).length < maxlen
        · rw [if_pos hlen]; exact hsorted
        · rw [if_neg hlen]
          have hmd : ((((l' ++ [last]) ++ [k]).drop ((l' ++ [last]).length + 1 - maxlen)).map Candle.t) =
              (((l' ++ [last]) ++ [k]).map Candle.t).drop ((l' ++ [last]).length + 1 - maxlen) := by
            rw [List.map_drop]
          rw [hmd]
          exact hsorted.sublist (List.drop_sublist _ _)
      · intro b hb
        by_cases hlen : (l' ++ [last]).length < maxlen
        · rw [if_pos hlen] at hb
          exact hmemk b hb
        · rw [if_neg hlen] at hb
          exact hmemk b ((List.drop_sublist _ _).mem hb)

/-- C9 (amended): the feed append de-duplicates only against the most
recently buffered candle, so the buffers stay strictly ordered by open
time (hence with unique open times) for every delivery sequence whose
open times are non-decreasing and not older than the buffered history —
repeats of the most recent bar are dropped; an out-of-order redelivery of
an older bar, however, is appended again and breaks the ordering. -/
theorem candle_buffer_ordered_of_monotone_deliveries (maxlen : ℕ)
    (buf : List Candle) (ks : List Candle)
    (hs : List.Pairwise (fun a b : ℤ => a < b) (buf.map Candle.t))
    (hks : List.Pairwise (fun a b : ℤ => a ≤ b) (ks.map Candle.t))
    (hlink : ∀ b ∈ buf, ∀ k ∈ ks, b.t ≤ k.t) :
    List.Pairwise (fun a b : ℤ => a < b)
      ((runDeliveries maxlen buf ks).map Candle.t) := by
  induction ks generalizing buf with
  | nil => exact hs
  | cons k rest ih =>
    rw [runDeliveries]
    have hge : ∀ b ∈ buf, b.t ≤ k.t := fun b hb => hlink b hb k (by simp)
    obtain ⟨hs', hle'⟩ := appendClosedCandle_sorted maxlen buf k hs hge
    apply ih _ hs'
    · rw [List.map_cons] at hks
      exact hks.of_cons
    · intro b hb k' hk'
      have hbk : b.t ≤ k.t := hle' b hb
      have hkk' : k.t ≤ k'.t := by
        rw [List.map_cons] at hks
        exact List.rel_of_pairwise_cons hks (List.mem_map_of_mem Candle.t hk')
      omega

/-- Witness for C9 (amended): an in-order delivery sequence with a repeat
of the newest bar leaves the buffer strictly ordered. -/
theorem candle_buffer_ordered_witness :
    List.Pairwise (fun a b : ℤ => a < b) (([] : List Candle).map Candle.t) ∧
    List.Pairwise (fun a b : ℤ => a ≤ b)
      (([⟨60000, 1, 2, 0, 1, 5⟩, ⟨120000, 1, 2, 0, 1, 5⟩, ⟨120000, 1, 2, 0, 1, 5⟩] :
        List Candle).map Candle.t) ∧
    List.Pairwise (fun a b : ℤ => a < b)
      ((runDeliveries 500 []
        [⟨60000, 1, 2, 0, 1, 5⟩, ⟨120000, 1, 2, 0, 1, 5⟩, ⟨120000, 1, 2, 0, 1, 5⟩]).map
          Candle.t) :=
  ⟨by simp, by norm_num, by
    exact candle_buffer_ordered_of_monotone_deliveries 500 []
      [⟨60000, 1, 2, 0, 1, 5⟩, ⟨120000, 1, 2, 0, 1, 5⟩, ⟨120000, 1, 2, 0, 1, 5⟩]
      (by simp) (by norm_num) (by simp)⟩

/-- Python's banker's rounding to an integer (`round`), in exact
arithmetic: nearest integer, ties to even. -/
def roundHalfEven (y : ℚ) : ℤ :=
  let f := ⌊y⌋
  let frac := y - f
  if frac < 1/2 then f
  else if frac > 1/2 then f + 1
  else if f % 2 = 0 then f else f + 1

/-- Python `round(x, dec)` in exact arithmetic (the float's binary
representation artifacts do not arise over `ℚ`). -/
def pyRound (x : ℚ) (dec : ℕ) : ℚ :=
  ((roundHalfEven (x * 10 ^ dec) : ℤ) : ℚ) / 10 ^ dec

/-- Mirrors `decimals_for_tick` (ictbot.py lines 518-530): the number of decimals
of the tick's decimal representation, i.e. the smallest `d` with
`tick * 10^d` an integer (the source reads the normalized `Decimal`
exponent; 28 is its context precision). -/
def decimals_for_tick (tick : ℚ) : ℕ :=
  ((List.range 28).find? (fun d => (tick * 10 ^ d).den == 1)).getD 0

/-- Mirrors `_quantize_price` (ictbot.py lines 2466-2469). -/
def quantize_price (p tick : ℚ) (bucket_ticks : ℤ) : ℚ :=
  let q := max EPS tick * ((max 1 bucket_ticks : ℤ) : ℚ)
  pyRound (((⌊p / q⌋ : ℤ) : ℚ) * q) 12

/-- The `%Y%m%d` day key of `make_signal_id` (ictbot.py lines 2475-2480)
for the UTC session timezone, modelled as the UTC day index (two
timestamps map to the same `%Y%m%d` string iff they map to the same
day index). -/
def utcDayIndex (tms : ℤ) : ℤ := tms / 86400000

/-- Python `str.upper()` over the character sequence. -/
def strUpper (s : String) : String := String.mk (s.data.map Char.toUpper)

/-- Python `str.strip()`: drop whitespace from both ends. -/
def strTrim (s : String) : String :=
  String.mk (((s.data.dropWhile Char.isWhitespace).reverse.dropWhile
    Char.isWhitespace).reverse)

/-- Injective rendering of a rational identity component (stands in for
Python's float formatting: distinct values render distinctly, equal
values identically). -/
def ratStr (q : ℚ) : String := toString q.num ++ "/" ++ toString q.den

/-- The `"long"` / `"short"` strings. -/
def sideStr : Side → String
  | .long => "long"
  | .short => "short"

/-- Mirrors `SignalIdParams` (ictbot.py lines 2452-2463); `gap_low`/`gap_high` are
the `fvg` dict's bounds.  The session timezone is fixed to the `"UTC"`
default. -/
structure SignalIdParams where
  side : Side
  gap_low : ℚ
  gap_high : ℚ
  pool_ref : ℚ
  bar_index : ℤ
  server_ms : Option ℤ
  tick : ℚ
  pool_count : Option ℤ
  bin_ticks : ℤ
  pool_tag : Option String
deriving DecidableEq, Repr

/-- The components of the identity string built by `make_signal_id`
(ictbot.py lines 2472-2490), in order: day key, side, tick-rounded gap
bounds, fine-quantized reference, bar index, pool count, coarse bin,
short tag.  `nowMs` is the ambient wall clock: the source's
`params.server_ms or now_ms()` falls back to it when `server_ms` is
missing (or the falsy `0`). -/
def signalIdParts (nowMs : ℤ) (p : SignalIdParams) :
    ℤ × Side × ℚ × ℚ × ℚ × ℤ × ℤ × ℚ × String :=
  let tms : ℤ :=
    match p.server_ms with
    | some t => if t = 0 then nowMs else t
    | none => nowMs
  let daykey := utcDayIndex tms
  let dec := decimals_for_tick p.tick
  let gl := pyRound p.gap_low dec
  let gh := pyRound p.gap_high dec
  let pr_q := pyRound (quantize_price p.pool_ref p.tick 5) dec
  let pr_bin := pyRound (quantize_price p.pool_ref p.tick (max 1 p.bin_ticks)) dec
  let pc : ℤ :=
    match p.pool_count with
    | some n => if 0 ≤ n then n else 0
    | none => 0
  let tag := strUpper (strTrim (p.pool_tag.getD ""))
  let tag_short := if tag = "" then "NA" else tag.take 6
  (daykey, p.side, gl, gh, pr_q, p.bar_index, pc, pr_bin, tag_short)

/-- The f-string of `make_signal_id` (ictbot.py line 2490):
`daykey|side|gl-gh|pr_q|b..|n..|q..|t..`. -/
def renderSignalId (t : ℤ × Side × ℚ × ℚ × ℚ × ℤ × ℤ × ℚ × String) : String :=
  toString t.1 ++ "|" ++ sideStr t.2.1 ++ "|" ++ ratStr t.2.2.1 ++ "-" ++
    ratStr t.2.2.2.1 ++ "|" ++ ratStr t.2.2.2.2.1 ++ "|b" ++
    toString t.2.2.2.2.2.1 ++ "|n" ++ toString t.2.2.2.2.2.2.1 ++ "|q" ++
    ratStr t.2.2.2.2.2.2.2.1 ++ "|t" ++ t.2.2.2.2.2.2.2.2

/-- Mirrors `make_signal_id` (ictbot.py lines 2472-2490). -/
def make_signal_id (nowMs : ℤ) (p : SignalIdParams) : String :=
  renderSignalId (signalIdParts nowMs p)

/-- The equation `decimals_for_tick 1 = 0` holds: a tick of 1 has no decimals. -/
lemma decimals_for_tick_one : decimals_for_tick 1 = 0 := by
  unfold decimals_for_tick
  have h : ((1 : ℚ) * 10 ^ (0 : ℕ)).den = 1 := by norm_num
  rw [show (28 : ℕ) = 27 + 1 from rfl, List.range_succ_eq_map]
  simp [List.find?, h]

/-- Counterexample to C10: two candidates identical in side, nearby-level
tag, reference level, bar index, level count, bin size, evaluated at the
same server instant (same trading day), whose imbalance lower bounds are
100.2 and 100.8 — within one tick of each other (tick = 1) — yet
`make_signal_id` rounds them to 100 and 101, producing **different**
identity strings. -/
theorem make_signal_id_one_tick_counterexample :
    |(501/5 : ℚ) - 504/5| < 1 ∧
    make_signal_id 0 ⟨Side.long, 501/5, 110, 100, 7, some 86400001, 1, some 3, 10, some "EQH"⟩ ≠
      make_signal_id 0 ⟨Side.long, 504/5, 110, 100, 7, some 86400001, 1, some 3, 10, some "EQH"⟩ := by
  have h1 : signalIdParts 0
      ⟨Side.long, 501/5, 110, 100, 7, some 86400001, 1, some 3, 10, some "EQH"⟩ =
      (1, Side.long, 100, 110, 100, 7, 3, 100, "EQH") := by
    simp only [signalIdParts, decimals_for_tick_one]
    norm_num [pyRound, roundHalfEven, quantize_price, utcDayIndex, EPS]
    decide
  have h2 : signalIdParts 0
      ⟨Side.long, 504/5, 110, 100, 7, some 86400001, 1, some 3, 10, some "EQH"⟩ =
      (1, Side.long, 101, 110, 100, 7, 3, 100, "EQH") := by
    simp only [signalIdParts, decimals_for_tick_one]
    norm_num [pyRound, roundHalfEven, quantize_price, utcDayIndex, EPS]
    decide
  refine ⟨by rw [abs_lt]; constructor <;> norm_num, ?_⟩
  show renderSignalId _ ≠ renderSignalId _
  rw [h1, h2]
  decide

/-- C10 (amended): `make_signal_id` is a function of the trading day of
the server-time sample and the identity components alone — for two
candidates with identical side, identical tick, imbalance bounds that
tick-round to the same values, the same reference level, bar index, level
count, bin size and tag, computed at any two (non-zero) server instants
of the same trading day, the identity strings coincide regardless of the
ambient wall clock. -/
theorem make_signal_id_stable (now1 now2 t1 t2 : ℤ) (p1 p2 : SignalIdParams)
    (hside : p1.side = p2.side) (htick : p1.tick = p2.tick)
    (hgl : pyRound p1.gap_low (decimals_for_tick p1.tick) =
      pyRound p2.gap_low (decimals_for_tick p2.tick))
    (hgh : pyRound p1.gap_high (decimals_for_tick p1.tick) =
      pyRound p2.gap_high (decimals_for_tick p2.tick))
    (href : p1.pool_ref = p2.pool_ref) (hbar : p1.bar_index = p2.bar_index)
    (hpc : p1.pool_count = p2.pool_count) (hbin : p1.bin_ticks = p2.bin_ticks)
    (htag : p1.pool_tag = p2.pool_tag)
    (ht1 : p1.server_ms = some t1) (ht2 : p2.server_ms = some t2)
    (ht1nz : t1 ≠ 0) (ht2nz : t2 ≠ 0)
    (hday : utcDayIndex t1 = utcDayIndex t2) :
    make_signal_id now1 p1 = make_signal_id now2 p2 := by
  unfold make_signal_id
  congr 1
  rw [htick] at hgl hgh
  simp only [signalIdParts, ht1, ht2, if_neg ht1nz, if_neg ht2nz, htick, hside,
    href, hbar, hpc, hbin, htag, Prod.mk.injEq, eq_self_iff_true, and_true,
    true_and]
  exact ⟨hday, hgl, hgh⟩

/-- Witness for C10 (amended): bounds 100.2 and 100.4 (both rounding to
100 with tick 1), identical structure, two different server instants of
the same UTC day, two different wall clocks — the identities coincide. -/
theorem make_signal_id_stable_witness :
    pyRound (501/5) (decimals_for_tick 1) = pyRound (502/5) (decimals_for_tick 1) ∧
    utcDayIndex 86400001 = utcDayIndex 86450000 ∧
    make_signal_id 5 ⟨Side.long, 501/5, 110, 100, 7, some 86400001, 1, some 3, 10, some "EQH"⟩ =
      make_signal_id 99 ⟨Side.long, 502/5, 110, 100, 7, some 86450000, 1, some 3, 10, some "EQH"⟩ := by
  have hgl : pyRound (501/5) (decimals_for_tick 1) = pyRound (502/5) (decimals_for_tick 1) := by
    rw [decimals_for_tick_one]
    norm_num [pyRound, roundHalfEven]
  have hday : utcDayIndex 86400001 = utcDayIndex 86450000 := by decide
  exact ⟨hgl, hday,
    make_signal_id_stable 5 99 86400001 86450000 _ _ rfl rfl hgl rfl rfl rfl rfl rfl rfl
      rfl rfl (by decide) (by decide) hday⟩

instance : Inhabited Candle := ⟨⟨0, 0, 0, 0, 0, 0⟩⟩

/-- Mirrors `clamp` (ictbot.py lines 514-515). -/
def clamp (x lo hi : ℚ) : ℚ := max lo (min hi x)

/-- Field access into the candle frame's columns at index `i` (the indices
the source uses are always in range; out-of-range reads return the
default candle). -/
def openAt (df : List Candle) (i : ℕ) : ℚ := (df.getD i default).o

/-- High column access. -/
def highAt (df : List Candle) (i : ℕ) : ℚ := (df.getD i default).h

/-- Low column access. -/
def lowAt (df : List Candle) (i : ℕ) : ℚ := (df.getD i default).l

/-- Close column access. -/
def closeAt (df : List Candle) (i : ℕ) : ℚ := (df.getD i default).c

/-- The true-range list of `atr` (ictbot.py lines 465-468): for each bar
`i ≥ 1`, `max(h-l, |h-prevClose|, |l-prevClose|)`. -/
def trueRanges (df : List Candle) : List ℚ :=
  ((List.range df.length).drop 1).map (fun i =>
    max (highAt df i - lowAt df i)
      (max |highAt df i - closeAt df (i - 1)| |lowAt df i - closeAt df (i - 1)|))

/-- Mirrors `atr` (ictbot.py lines 461-472): the mean of the last `period` true
ranges (`rolling(period).mean().iloc[-1]`), 0 when there is not enough
history. -/
def atr (df : List Candle) (period : ℕ) : ℚ :=
  if df.length < period + 1 then 0
  else
    let trs := trueRanges df
    if trs.length < period then 0
    else (trs.drop (trs.length - period)).sum / period

/-- Mirrors `side_round` (ictbot.py lines 486-505).  The final `round(v, dec)`
of the source only removes binary-float artifacts and is the identity in
exact arithmetic (a multiple of a `dec`-decimal tick has at most `dec`
decimals), so it is omitted. -/
def side_round (price tick : ℚ) (side favor : String) : ℚ :=
  if tick ≤ 0 then price
  else
    let is_buy := side == "buy" || side == "long"
    if is_buy then
      if favor == "entry" then ((⌊price / tick⌋ : ℤ) : ℚ) * tick
      else ((⌈price / tick⌉ : ℤ) : ℚ) * tick
    else
      if favor == "entry" then ((⌈price / tick⌉ : ℤ) : ℚ) * tick
      else ((⌊price / tick⌋ : ℤ) : ℚ) * tick

/-- Direction of a detected imbalance. -/
inductive FvgDir where
  | bullish
  | bearish
deriving DecidableEq, Repr

/-- A detected imbalance (the dicts built at ictbot.py lines 1650/1653). -/
structure Fvg where
  dir : FvgDir
  gap_low : ℚ
  gap_high : ℚ
  bar_index : ℕ
deriving DecidableEq, Repr

/-- Configuration fields consumed by `detect_fvgs` and
`detect_sweep_and_fvg`. -/
structure DetectCfg where
  sweep_t_reject_max_bars : ℕ
  fvg_gap_use_bps : Bool
  fvg_gap_min_bps : ℚ
  fvg_min_ticks : ℚ
  fvg_gap_relax_bps : ℚ
  score_cand_base_offset : ℚ
  score_cand_fvgq_w : ℚ
  displacement_w : ℚ
deriving DecidableEq, Repr

/-- Mirrors `detect_fvgs` (ictbot.py lines 1628-1654): three-bar gaps, scanning
`i` from 2; for each `i` the bullish candidate (if any) is appended before
the bearish one. -/
def detect_fvgs (df : List Candle) (cfg : DetectCfg) (tick : ℚ) : List Fvg :=
  if df.length < 5 then []
  else
    ((List.range df.length).drop 2).flatMap (fun i =>
      let Hm2 := highAt df (i - 2)
      let Lm2 := lowAt df (i - 2)
      let thr_bull := if cfg.fvg_gap_use_bps then Hm2 * (cfg.fvg_gap_min_bps / 10000)
        else cfg.fvg_min_ticks * max tick EPS
      let thr_bear := if cfg.fvg_gap_use_bps then Lm2 * (cfg.fvg_gap_min_bps / 10000)
        else cfg.fvg_min_ticks * max tick EPS
      let relax_bps := max 0 cfg.fvg_gap_relax_bps
      let thr_bull_eff := max 0 (thr_bull - Hm2 * (relax_bps / 10000))
      let thr_bear_eff := max 0 (thr_bear - Lm2 * (relax_bps / 10000))
      (if Hm2 + thr_bull_eff ≤ lowAt df i then
        [⟨FvgDir.bullish, Hm2, lowAt df i, i⟩] else []) ++
      (if highAt df i + thr_bear_eff ≤ Lm2 then
        [⟨FvgDir.bearish, highAt df i, Lm2, i⟩] else []))

/-- Parameters of `detect_sweep_and_fvg` (the `SweepFvgParams` dataclass,
ictbot.py lines 2501-2509). -/
structure SweepFvgParams where
  exec_df : List Candle
  pools_up : List ℚ
  pools_dn : List ℚ
  tick : ℚ
  cfg : DetectCfg
  pen_bps : ℚ
  cb_bps : ℚ

/-- The candidate dict returned by `detect_sweep_and_fvg`. -/
structure CandOut where
  side : Side
  entry : ℚ
  stop : ℚ
  score_base : ℚ
  tags : List String
  fvg : Fvg
deriving DecidableEq, Repr

/-- The descending bar scan `range(n - 3, 3, -1)` = `[n-3, n-4, ..., 4]`
(the start `n - 3` is inclusive, the stop `3` exclusive). -/
def iDown (n : ℕ) : List ℕ := ((List.range (n - 2)).drop 4).reverse

/-- The close-back window `range(i, min(n, i + tmax + 1))`. -/
def jRange (n tmax i : ℕ) : List ℕ := List.range' i (min n (i + tmax + 1) - i)

/-- The inner body of the "sweep above" loop (ictbot.py lines 2524-2560)
for one resistance level `lvl` and bar `i`.  `fq` abstracts `fvg_quality`
(ictbot.py lines 1560-1576), whose volume z-score takes a square root and
is therefore not a rational-valued function; it only feeds the score.
`a` is the ATR-or-EPS computed once at the top of the detector. -/
def sweepUpAt (fq : List Candle → ℚ → ℚ → ℚ) (a : ℚ) (P : SweepFvgParams)
    (lvl : ℚ) (i : ℕ) : Option CandOut :=
  let df := P.exec_df
  if lvl * (1 + P.pen_bps / 10000) ≤ highAt df i then
    match (jRange df.length P.cfg.sweep_t_reject_max_bars i).find?
        (fun j => decide (closeAt df j ≤ lvl * (1 - P.cb_bps / 10000))) with
    | none => none
    | some jhit =>
      match ((detect_fvgs (df.take (jhit + 1)) P.cfg P.tick).filter
          (fun x => x.dir == FvgDir.bearish)).getLast? with
      | none => none
      | some x =>
        let q := fq (df.take (jhit + 1)) x.gap_low x.gap_high
        let body := |closeAt df i - openAt df i| / (a + EPS)
        let disp := clamp (body / (3/2)) 0 1
        let score := P.cfg.score_cand_base_offset + P.cfg.score_cand_fvgq_w * q +
          P.cfg.displacement_w * disp
        some { side := Side.short
               entry := side_round x.gap_high P.tick "sell" "entry"
               stop := side_round (max (highAt df i) x.gap_high + 1 * max P.tick EPS)
                 P.tick "sell" "protection"
               score_base := score
               tags := ["sweep_above"]
               fvg := x }
  else none

/-- The inner body of the "sweep below" loop (ictbot.py lines 2563-2598)
for one support level `lvl` and bar `i`. -/
def sweepDnAt (fq : List Candle → ℚ → ℚ → ℚ) (a : ℚ) (P : SweepFvgParams)
    (lvl : ℚ) (i : ℕ) : Option CandOut :=
  let df := P.exec_df
  if lowAt df i ≤ lvl * (1 - P.pen_bps / 10000) then
    match (jRange df.length P.cfg.sweep_t_reject_max_bars i).find?
        (fun j => decide (lvl * (1 + P.cb_bps / 10000) ≤ closeAt df j)) with
    | none => none
    | some jhit =>
      match ((detect_fvgs (df.take (jhit + 1)) P.cfg P.tick).filter
          (fun x => x.dir == FvgDir.bullish)).getLast? with
      | none => none
      | some x =>
        let q := fq (df.take (jhit + 1)) x.gap_low x.gap_high
        let body := |closeAt df i - openAt df i| / (a + EPS)
        let disp := clamp (body / (3/2)) 0 1
        let score := P.cfg.score_cand_base_offset + P.cfg.score_cand_fvgq_w * q +
          P.cfg.displacement_w * disp
        some { side := Side.long
               entry := side_round x.gap_low P.tick "buy" "entry"
               stop := side_round (min (lowAt df i) x.gap_low - 1 * max P.tick EPS)
                 P.tick "buy" "protection"
               score_base := score
               tags := ["sweep_below"]
               fvg := x }
  else none

/-- The "sweep above" scan: levels in ascending order (`sorted`), bars
newest to oldest. -/
def scanUp (fq : List Candle → ℚ → ℚ → ℚ) (a : ℚ) (P : SweepFvgParams) :
    Option CandOut :=
  (P.pools_up.mergeSort (fun x y => decide (x ≤ y))).findSome? (fun lvl =>
    (iDown P.exec_df.length).findSome? (sweepUpAt fq a P lvl))

/-- The "sweep below" scan: levels in descending order
(`sorted(..., reverse=True)`), bars newest to oldest. -/
def scanDn (fq : List Candle → ℚ → ℚ → ℚ) (a : ℚ) (P : SweepFvgParams) :
    Option CandOut :=
  (P.pools_dn.mergeSort (fun x y => decide (y ≤ x))).findSome? (fun lvl =>
    (iDown P.exec_df.length).findSome? (sweepDnAt fq a P lvl))

/-- Mirrors `a = atr(exec_df, 14) or EPS` (ictbot.py line 2516). -/
def atrOrEps (df : List Candle) : ℚ :=
  if atr df 14 = 0 then EPS else atr df 14

/-- Mirrors `detect_sweep_and_fvg` (ictbot.py lines 2511-2600): guard on 30 bars of
history, compute the ATR once, scan resistance levels for a short
candidate first, then support levels for a long candidate. -/
def detect_sweep_and_fvg (fq : List Candle → ℚ → ℚ → ℚ) (P : SweepFvgParams) :
    Option CandOut :=
  if P.exec_df.length < 30 then none
  else
    match scanUp fq (atrOrEps P.exec_df) P with
    | some c => some c
    | none => scanDn fq (atrOrEps P.exec_df) P

/-- Protective rounding for a long stop stays strictly below any bound
that exceeds the raw stop by at least `max tick EPS`. -/
lemma side_round_buy_protection_lt (x tick bound : ℚ)
    (hx : x ≤ bound - max tick EPS) :
    side_round x tick "buy" "protection" < bound := by
  have heps : (0 : ℚ) < max tick EPS :=
    lt_of_lt_of_le (by norm_num [EPS]) (le_max_right tick EPS)
  unfold side_round
  by_cases ht : tick ≤ 0
  · rw [if_pos ht]
    linarith
  · rw [if_neg ht]
    push_neg at ht
    simp only [show ("buy" == "buy" || "buy" == "long") = true from rfl, if_true,
      show ("protection" == "entry") = false from rfl, Bool.false_eq_true, if_false]
    have h1 : ((⌈x / tick⌉ : ℤ) : ℚ) < x / tick + 1 := Int.ceil_lt_add_one _
    have h2 : ((⌈x / tick⌉ : ℤ) : ℚ) * tick < (x / tick + 1) * tick :=
      mul_lt_mul_of_pos_right h1 ht
    have h3 : (x / tick + 1) * tick = x + tick := by field_simp
    have h4 : tick ≤ max tick EPS := le_max_left _ _
    linarith

/-- Unpacking a successful "sweep below" body: the candidate is long, the
bar `i` pierced the level, a close-back bar `jhit` was found, the most
recent bullish imbalance up to it is `x`, and entry/stop are its rounded
lower edge and the protected stop under the sweep low. -/
lemma sweepDnAt_sound (fq : List Candle → ℚ → ℚ → ℚ) (a : ℚ)
    (P : SweepFvgParams) (lvl : ℚ) (i : ℕ) (c : CandOut)
    (h : sweepDnAt fq a P lvl i = some c) :
    c.side = Side.long ∧
    lowAt P.exec_df i ≤ lvl * (1 - P.pen_bps / 10000) ∧
    ∃ jhit x,
      (jRange P.exec_df.length P.cfg.sweep_t_reject_max_bars i).find?
        (fun j => decide (lvl * (1 + P.cb_bps / 10000) ≤ closeAt P.exec_df j)) =
        some jhit ∧
      ((detect_fvgs (P.exec_df.take (jhit + 1)) P.cfg P.tick).filter
        (fun y => y.dir == FvgDir.bullish)).getLast? = some x ∧
      c.entry = side_round x.gap_low P.tick "buy" "entry" ∧
      c.stop = side_round (min (lowAt P.exec_df i) x.gap_low - 1 * max P.tick EPS)
        P.tick "buy" "protection" := by
  simp only [sweepDnAt] at h
  by_cases hp : lowAt P.exec_df i ≤ lvl * (1 - P.pen_bps / 10000)
  · rw [if_pos hp] at h
    rcases hj : (jRange P.exec_df.length P.cfg.sweep_t_reject_max_bars i).find?
        (fun j => decide (lvl * (1 + P.cb_bps / 10000) ≤ closeAt P.exec_df j)) with _ | jhit
    · rw [hj] at h; exact Option.noConfusion h
    · rw [hj] at h
      dsimp only at h
      rcases hx : ((detect_fvgs (P.exec_df.take (jhit + 1)) P.cfg P.tick).filter
          (fun y => y.dir == FvgDir.bullish)).getLast? with _ | x
      · rw [hx] at h; exact Option.noConfusion h
      · rw [hx] at h
        dsimp only at h
        have hc := Option.some_inj.mp h
        subst hc
        exact ⟨rfl, hp, jhit, x, rfl, hx, rfl, rfl⟩
  · rw [if_neg hp] at h
    exact Option.noConfusion h

/-- A "sweep below" body with all its preconditions met returns a
candidate. -/
lemma sweepDnAt_isSome (fq : List Candle → ℚ → ℚ → ℚ) (a : ℚ)
    (P : SweepFvgParams) (lvl : ℚ) (i jhit : ℕ) (x : Fvg)
    (hp : lowAt P.exec_df i ≤ lvl * (1 - P.pen_bps / 10000))
    (hj : (jRange P.exec_df.length P.cfg.sweep_t_reject_max_bars i).find?
      (fun j => decide (lvl * (1 + P.cb_bps / 10000) ≤ closeAt P.exec_df j)) =
      some jhit)
    (hx : ((detect_fvgs (P.exec_df.take (jhit + 1)) P.cfg P.tick).filter
      (fun y => y.dir == FvgDir.bullish)).getLast? = some x) :
    sweepDnAt fq a P lvl i ≠ none := by
  simp only [sweepDnAt]
  rw [if_pos hp, hj]
  dsimp only
  rw [hx]
  simp

/-- Every candidate produced by the support-side scan comes from some
level of `pools_dn` and some bar of the scan range, with the long shape
of `sweepDnAt_sound`. -/
lemma scanDn_sound (fq : List Candle → ℚ → ℚ → ℚ) (a : ℚ)
    (P : SweepFvgParams) (c : CandOut) (h : scanDn fq a P = some c) :
    c.side = Side.long ∧
    ∃ lvl ∈ P.pools_dn, ∃ i ∈ iDown P.exec_df.length,
      lowAt P.exec_df i ≤ lvl * (1 - P.pen_bps / 10000) ∧
      ∃ jhit x,
        (jRange P.exec_df.length P.cfg.sweep_t_reject_max_bars i).find?
          (fun j => decide (lvl * (1 + P.cb_bps / 10000) ≤ closeAt P.exec_df j)) =
          some jhit ∧
        ((detect_fvgs (P.exec_df.take (jhit + 1)) P.cfg P.tick).filter
          (fun y => y.dir == FvgDir.bullish)).getLast? = some x ∧
        c.entry = side_round x.gap_low P.tick "buy" "entry" ∧
        c.stop = side_round (min (lowAt P.exec_df i) x.gap_low - 1 * max P.tick EPS)
          P.tick "buy" "protection" := by
  unfold scanDn at h
  obtain ⟨lvl, hlvl, h2⟩ := List.exists_of_findSome?_eq_some h
  obtain ⟨i, hi, h3⟩ := List.exists_of_findSome?_eq_some h2
  obtain ⟨hside, hp, jhit, x, hj, hx, he, hst⟩ := sweepDnAt_sound fq a P lvl i c h3
  exact ⟨hside, lvl, List.mem_mergeSort.mp hlvl, i, hi, hp, jhit, x, hj, hx, he, hst⟩

/-- The support-side scan cannot come up empty when some level and bar
admit a full sweep-and-reclaim with a bullish imbalance. -/
lemma scanDn_complete (fq : List Candle → ℚ → ℚ → ℚ) (a : ℚ)
    (P : SweepFvgParams) (lvl : ℚ) (i : ℕ)
    (hl : lvl ∈ P.pools_dn) (hi : i ∈ iDown P.exec_df.length)
    (hne : sweepDnAt fq a P lvl i ≠ none) : scanDn fq a P ≠ none := by
  unfold scanDn
  intro hnone
  rw [List.findSome?_eq_none_iff] at hnone
  have h1 := hnone lvl (List.mem_mergeSort.mpr hl)
  rw [List.findSome?_eq_none_iff] at h1
  exact hne (h1 i hi)

/-- C7 (amended): when no resistance-side (short) sweep candidate
qualifies — that scan runs first — and the candle sequence admits a
support-side sweep (a low at bar `i` pierces level `lvl` by the
penetration threshold, a close within the bounded window comes back above
it by the close-back threshold at bar `jhit`) followed by a qualifying
bullish imbalance, then `detect_sweep_and_fvg` returns a long candidate
whose entry is the chosen imbalance's lower edge rounded toward favorable
execution (down to the tick) and whose stop — the protective rounding of
just-beyond the sweep low and the imbalance's far edge — is strictly
below the sweep low. -/
theorem detect_sweep_long_candidate (fq : List Candle → ℚ → ℚ → ℚ)
    (P : SweepFvgParams) (lvl : ℚ) (i jhit : ℕ) (x : Fvg)
    (h30 : ¬ P.exec_df.length < 30)
    (hup : scanUp fq (atrOrEps P.exec_df) P = none)
    (hl : lvl ∈ P.pools_dn) (hi : i ∈ iDown P.exec_df.length)
    (hp : lowAt P.exec_df i ≤ lvl * (1 - P.pen_bps / 10000))
    (hj : (jRange P.exec_df.length P.cfg.sweep_t_reject_max_bars i).find?
      (fun j => decide (lvl * (1 + P.cb_bps / 10000) ≤ closeAt P.exec_df j)) =
      some jhit)
    (hx : ((detect_fvgs (P.exec_df.take (jhit + 1)) P.cfg P.tick).filter
      (fun y => y.dir == FvgDir.bullish)).getLast? = some x) :
    ∃ c, detect_sweep_and_fvg fq P = some c ∧ c.side = Side.long ∧
      ∃ lvl' ∈ P.pools_dn, ∃ i' ∈ iDown P.exec_df.length,
        lowAt P.exec_df i' ≤ lvl' * (1 - P.pen_bps / 10000) ∧
        ∃ jhit' x',
          (jRange P.exec_df.length P.cfg.sweep_t_reject_max_bars i').find?
            (fun j => decide (lvl' * (1 + P.cb_bps / 10000) ≤ closeAt P.exec_df j)) =
            some jhit' ∧
          ((detect_fvgs (P.exec_df.take (jhit' + 1)) P.cfg P.tick).filter
            (fun y => y.dir == FvgDir.bullish)).getLast? = some x' ∧
          c.entry = side_round x'.gap_low P.tick "buy" "entry" ∧
          c.stop = side_round (min (lowAt P.exec_df i') x'.gap_low - 1 * max P.tick EPS)
            P.tick "buy" "protection" ∧
          c.stop < lowAt P.exec_df i' := by
  have hd : detect_sweep_and_fvg fq P = scanDn fq (atrOrEps P.exec_df) P := by
    unfold detect_sweep_and_fvg
    rw [if_neg h30, hup]
  have hne : scanDn fq (atrOrEps P.exec_df) P ≠ none :=
    scanDn_complete fq (atrOrEps P.exec_df) P lvl i hl hi
      (sweepDnAt_isSome fq (atrOrEps P.exec_df) P lvl i jhit x hp hj hx)
  obtain ⟨c, hc⟩ := Option.ne_none_iff_exists'.mp hne
  obtain ⟨hside, lvl', hlvl', i', hi', hp', jhit', x', hj', hx', he, hst⟩ :=
    scanDn_sound fq (atrOrEps P.exec_df) P c hc
  refine ⟨c, by rw [hd, hc], hside, lvl', hlvl', i', hi', hp', jhit', x', hj', hx',
    he, hst, ?_⟩
  rw [hst]
  apply side_round_buy_protection_lt
  have hm : min (lowAt P.exec_df i') x'.gap_low ≤ lowAt P.exec_df i' :=
    min_le_left _ _
  linarith

/-- Any candidate the resistance-side scan produces is a short. -/
lemma scanUp_sound_side (fq : List Candle → ℚ → ℚ → ℚ) (a : ℚ)
    (P : SweepFvgParams) (c : CandOut) (h : scanUp fq a P = some c) :
    c.side = Side.short := by
  unfold scanUp at h
  obtain ⟨lvl, _, h2⟩ := List.exists_of_findSome?_eq_some h
  obtain ⟨i, _, h3⟩ := List.exists_of_findSome?_eq_some h2
  simp only [sweepUpAt] at h3
  by_cases hp : lvl * (1 + P.pen_bps / 10000) ≤ highAt P.exec_df i
  · rw [if_pos hp] at h3
    rcases hj : (jRange P.exec_df.length P.cfg.sweep_t_reject_max_bars i).find?
        (fun j => decide (closeAt P.exec_df j ≤ lvl * (1 - P.cb_bps / 10000))) with _ | jhit
    · rw [hj] at h3; exact Option.noConfusion h3
    · rw [hj] at h3
      dsimp only at h3
      rcases hx : ((detect_fvgs (P.exec_df.take (jhit + 1)) P.cfg P.tick).filter
          (fun y => y.dir == FvgDir.bearish)).getLast? with _ | x
      · rw [hx] at h3; exact Option.noConfusion h3
      · rw [hx] at h3
        dsimp only at h3
        have hc := Option.some_inj.mp h3
        subst hc
        rfl
  · rw [if_neg hp] at h3
    exact Option.noConfusion h3

/-- A "sweep above" body with its preconditions met returns a candidate. -/
lemma sweepUpAt_isSome (fq : List Candle → ℚ → ℚ → ℚ) (a : ℚ)
    (P : SweepFvgParams) (lvl : ℚ) (i jhit : ℕ) (x : Fvg)
    (hp : lvl * (1 + P.pen_bps / 10000) ≤ highAt P.exec_df i)
    (hj : (jRange P.exec_df.length P.cfg.sweep_t_reject_max_bars i).find?
      (fun j => decide (closeAt P.exec_df j ≤ lvl * (1 - P.cb_bps / 10000))) =
      some jhit)
    (hx : ((detect_fvgs (P.exec_df.take (jhit + 1)) P.cfg P.tick).filter
      (fun y => y.dir == FvgDir.bearish)).getLast? = some x) :
    sweepUpAt fq a P lvl i ≠ none := by
  simp only [sweepUpAt]
  rw [if_pos hp, hj]
  dsimp only
  rw [hx]
  simp

/-- The resistance-side scan cannot come up empty when some level and bar
admit a full sweep with a bearish imbalance. -/
lemma scanUp_complete (fq : List Candle → ℚ → ℚ → ℚ) (a : ℚ)
    (P : SweepFvgParams) (lvl : ℚ) (i : ℕ)
    (hl : lvl ∈ P.pools_up) (hi : i ∈ iDown P.exec_df.length)
    (hne : sweepUpAt fq a P lvl i ≠ none) : scanUp fq a P ≠ none := by
  unfold scanUp
  intro hnone
  rw [List.findSome?_eq_none_iff] at hnone
  have h1 := hnone lvl (List.mem_mergeSort.mpr hl)
  rw [List.findSome?_eq_none_iff] at h1
  exact hne (h1 i hi)

/-- A concrete candle of the sweep scenario (open time and volume are not
read by the detector). -/
def mkBar (o h l c : ℚ) : Candle := ⟨0, o, h, l, c, 10⟩

/-- A 30-bar candle sequence containing **both** a resistance-side sweep of
level 1000 at bar 10 (high 1002 pierces, close 999 reclaims, bearish
imbalance at bar 6) and a support-side sweep of level 900 at bar 20 (low
899 pierces, close 950 reclaims, bullish imbalance at bar 15). -/
def cexDf : List Candle :=
  [mkBar 950 955 945 950, mkBar 950 955 945 950, mkBar 950 955 945 950,
   mkBar 950 955 945 950, mkBar 962 965 960 962, mkBar 950 955 945 950,
   mkBar 950 955 945 950, mkBar 950 955 945 950, mkBar 950 955 945 950,
   mkBar 950 955 945 950, mkBar 1000 1002 995 999, mkBar 950 955 945 950,
   mkBar 950 955 945 950, mkBar 938 940 936 938, mkBar 950 955 945 950,
   mkBar 944 946 942 944, mkBar 950 955 945 950, mkBar 950 955 945 950,
   mkBar 950 955 945 950, mkBar 950 955 945 950, mkBar 950 955 899 950,
   mkBar 950 955 945 950, mkBar 950 955 945 950, mkBar 950 955 945 950,
   mkBar 950 955 945 950, mkBar 950 955 945 950, mkBar 950 955 945 950,
   mkBar 950 955 945 950, mkBar 950 955 945 950, mkBar 950 955 945 950]

/-- Detector configuration of the scenario: close-back window of 3 bars,
tick-based imbalance threshold of 1 tick, no relaxation. -/
def cexCfg : DetectCfg := ⟨3, false, 30, 1, 0, 1/10, 3/10, 1/10⟩

/-- Scenario parameters with both a resistance level (1000) and a support
level (900); 10 bps penetration and close-back thresholds, tick 1. -/
def cexP : SweepFvgParams := ⟨cexDf, [1000], [900], 1, cexCfg, 10, 10⟩

/-- The same scenario without any resistance-side level. -/
def cexPnoUp : SweepFvgParams := ⟨cexDf, [], [900], 1, cexCfg, 10, 10⟩

/-- Bar 20's low (899) pierces support level 900 by more than 10 bps. -/
lemma cex_pierce_dn : lowAt cexDf 20 ≤ 900 * (1 - (10 : ℚ) / 10000) := by
  have h : lowAt cexDf 20 = 899 := by decide
  rw [h]; norm_num

/-- Bar 20's close (950) already reclaims level 900 by 10 bps, so the
close-back search finds `j = 20` immediately. -/
lemma cex_jfind_dn :
    (jRange cexDf.length 3 20).find?
      (fun j => decide ((900 : ℚ) * (1 + 10 / 10000) ≤ closeAt cexDf j)) =
      some 20 := by
  have hr : jRange cexDf.length 3 20 = [20, 21, 22, 23] := by decide
  have hc : closeAt cexDf 20 = 950 := by decide
  rw [hr]
  simp only [List.find?]
  rw [hc]
  norm_num

/-- The bullish imbalances of the first 21 bars end with the bar-15 gap
(940, 942). -/
lemma cex_bull_fvg :
    ((detect_fvgs (cexDf.take 21) cexCfg 1).filter
      (fun y => y.dir == FvgDir.bullish)).getLast? =
      some ⟨FvgDir.bullish, 940, 942, 15⟩ := by
  have h : detect_fvgs (cexDf.take 21) cexCfg 1 =
      [⟨FvgDir.bullish, 955, 960, 4⟩, ⟨FvgDir.bearish, 955, 960, 6⟩,
       ⟨FvgDir.bullish, 955, 995, 10⟩, ⟨FvgDir.bearish, 955, 995, 12⟩,
       ⟨FvgDir.bearish, 940, 945, 13⟩, ⟨FvgDir.bullish, 940, 942, 15⟩] := by
    norm_num [detect_fvgs, cexDf, cexCfg, mkBar, highAt, lowAt, EPS,
      List.range, List.range.loop, List.getD, List.flatMap]
  rw [h]
  rfl

/-- Bar 10's high (1002) pierces resistance level 1000 by more than
10 bps. -/
lemma cex_pierce_up : (1000 : ℚ) * (1 + 10 / 10000) ≤ highAt cexDf 10 := by
  have h : highAt cexDf 10 = 1002 := by decide
  rw [h]; norm_num

/-- Bar 10's close (999) already closes back below level 1000 by 10 bps. -/
lemma cex_jfind_up :
    (jRange cexDf.length 3 10).find?
      (fun j => decide (closeAt cexDf j ≤ (1000 : ℚ) * (1 - 10 / 10000))) =
      some 10 := by
  have hr : jRange cexDf.length 3 10 = [10, 11, 12, 13] := by decide
  have hc : closeAt cexDf 10 = 999 := by decide
  rw [hr]
  simp only [List.find?]
  rw [hc]
  norm_num

/-- The bearish imbalances of the first 11 bars end with the bar-6 gap
(955, 960). -/
lemma cex_bear_fvg :
    ((detect_fvgs (cexDf.take 11) cexCfg 1).filter
      (fun y => y.dir == FvgDir.bearish)).getLast? =
      some ⟨FvgDir.bearish, 955, 960, 6⟩ := by
  have h : detect_fvgs (cexDf.take 11) cexCfg 1 =
      [⟨FvgDir.bullish, 955, 960, 4⟩, ⟨FvgDir.bearish, 955, 960, 6⟩,
       ⟨FvgDir.bullish, 955, 995, 10⟩] := by
    norm_num [detect_fvgs, cexDf, cexCfg, mkBar, highAt, lowAt, EPS,
      List.range, List.range.loop, List.getD, List.flatMap]
  rw [h]
  rfl

/-- Counterexample to C7: on `cexDf` the support-side (long) scenario of
the claim holds in full — level 900 is pierced at bar 20, the close
reclaims it within the window, and a qualifying bullish imbalance
follows — yet `detect_sweep_and_fvg` returns a **short** candidate,
because the resistance-side scan (level 1000 swept at bar 10) runs first
and preempts the long. -/
theorem detect_short_priority_counterexample :
    ((900 : ℚ) ∈ cexP.pools_dn ∧ 20 ∈ iDown cexP.exec_df.length ∧
      lowAt cexP.exec_df 20 ≤ 900 * (1 - cexP.pen_bps / 10000) ∧
      (jRange cexP.exec_df.length cexP.cfg.sweep_t_reject_max_bars 20).find?
        (fun j => decide (900 * (1 + cexP.cb_bps / 10000) ≤ closeAt cexP.exec_df j)) =
        some 20 ∧
      ((detect_fvgs (cexP.exec_df.take 21) cexP.cfg cexP.tick).filter
        (fun y => y.dir == FvgDir.bullish)).getLast? =
        some ⟨FvgDir.bullish, 940, 942, 15⟩) ∧
    (detect_sweep_and_fvg (fun _ _ _ => 0) cexP).map CandOut.side =
      some Side.short := by
  refine ⟨⟨by decide, by decide, cex_pierce_dn, cex_jfind_dn, cex_bull_fvg⟩, ?_⟩
  have hne : scanUp (fun _ _ _ => 0) (atrOrEps cexP.exec_df) cexP ≠ none :=
    scanUp_complete (fun _ _ _ => 0) (atrOrEps cexP.exec_df) cexP 1000 10
      (by decide) (by decide)
      (sweepUpAt_isSome (fun _ _ _ => 0) (atrOrEps cexP.exec_df) cexP 1000 10 10
        ⟨FvgDir.bearish, 955, 960, 6⟩ cex_pierce_up cex_jfind_up cex_bear_fvg)
  obtain ⟨c, hc⟩ := Option.ne_none_iff_exists'.mp hne
  have hside := scanUp_sound_side (fun _ _ _ => 0) (atrOrEps cexP.exec_df) cexP c hc
  have hd : detect_sweep_and_fvg (fun _ _ _ => 0) cexP = some c := by
    unfold detect_sweep_and_fvg
    rw [if_neg (by decide : ¬ cexP.exec_df.length < 30), hc]
  rw [hd, Option.map_some', hside]

/-- Witness for C7 (amended): the same candle sequence with no
resistance-side level; all hypotheses of the amended theorem hold and the
detector returns the long candidate with the claimed entry and stop. -/
theorem detect_sweep_long_candidate_witness :
    (¬ cexPnoUp.exec_df.length < 30) ∧
    scanUp (fun _ _ _ => 0) (atrOrEps cexPnoUp.exec_df) cexPnoUp = none ∧
    (900 : ℚ) ∈ cexPnoUp.pools_dn ∧ 20 ∈ iDown cexPnoUp.exec_df.length ∧
    (∃ c, detect_sweep_and_fvg (fun _ _ _ => 0) cexPnoUp = some c ∧
      c.side = Side.long ∧
      ∃ lvl' ∈ cexPnoUp.pools_dn, ∃ i' ∈ iDown cexPnoUp.exec_df.length,
        lowAt cexPnoUp.exec_df i' ≤ lvl' * (1 - cexPnoUp.pen_bps / 10000) ∧
        ∃ jhit' x',
          (jRange cexPnoUp.exec_df.length cexPnoUp.cfg.sweep_t_reject_max_bars i').find?
            (fun j => decide (lvl' * (1 + cexPnoUp.cb_bps / 10000) ≤
              closeAt cexPnoUp.exec_df j)) = some jhit' ∧
          ((detect_fvgs (cexPnoUp.exec_df.take (jhit' + 1)) cexPnoUp.cfg
            cexPnoUp.tick).filter (fun y => y.dir == FvgDir.bullish)).getLast? =
            some x' ∧
          c.entry = side_round x'.gap_low cexPnoUp.tick "buy" "entry" ∧
          c.stop = side_round (min (lowAt cexPnoUp.exec_df i') x'.gap_low -
            1 * max cexPnoUp.tick EPS) cexPnoUp.tick "buy" "protection" ∧
          c.stop < lowAt cexPnoUp.exec_df i') := by
  have hup : scanUp (fun _ _ _ => 0) (atrOrEps cexPnoUp.exec_df) cexPnoUp = none := by
    simp [scanUp, cexPnoUp]
  refine ⟨by decide, hup, by decide, by decide, ?_⟩
  exact detect_sweep_long_candidate (fun _ _ _ => 0) cexPnoUp 900 20 20
    ⟨FvgDir.bullish, 940, 942, 15⟩ (by decide) hup (by decide) (by decide)
    cex_pierce_dn cex_jfind_dn cex_bull_fvg

end Ictbot
